import Mathlib

/-!
Shallow embedding of `src/Build/lib/cache-filesystem.ts`: a persistent TTL
key-value cache over a SQLite table, plus the array codec
(`serializeArray` / `deserializeArray`).

A table is a list of rows `(key TEXT PRIMARY KEY, value TEXT, ttl REAL)`.
Timestamps are integers (milliseconds since epoch).  A row value is
`Option String`, where `none` models SQL `NULL`; the TS methods return
`S | null`, modelled as `Option String` results.  Stateful methods return
the updated table alongside their result.
-/

namespace CacheFS

/-- A row of the cache table: `(key TEXT PRIMARY KEY, value TEXT, ttl REAL NOT NULL)`.
`value = none` models SQL `NULL`. -/
structure Row where
  key : String
  value : Option String
  ttl : Int
  deriving Repr, DecidableEq

/-- The cache table. -/
abbrev Table := List Row

/-- `SELECT ttl, value FROM t WHERE key = ? LIMIT 1` -/
def stmtGet (t : Table) (key : String) : Option Row :=
  t.find? (fun r => r.key == key)

/-- `DELETE FROM t WHERE key = ?` -/
def stmtDel (t : Table) (key : String) : Table :=
  t.filter (fun r => r.key != key)

/-- `UPDATE t SET ttl = ? WHERE key = ?` -/
def stmtUpdateTtl (t : Table) (newTtl : Int) (key : String) : Table :=
  t.map (fun r => if r.key == key then { r with ttl := newTtl } else r)

/-- `INSERT INTO t (key, value, ttl) VALUES ($key, $value, $valid)
ON CONFLICT(key) DO UPDATE SET value = $value, ttl = $valid` -/
def stmtInsert (t : Table) (key : String) (value : Option String) (valid : Int) : Table :=
  if t.any (fun r => r.key == key) then
    t.map (fun r => if r.key == key then { r with value := value, ttl := valid } else r)
  else
    t ++ [{ key := key, value := value, ttl := valid }]

/-- `Cache.set(key, value, ttl = 60000)`: `valid = Date.now() + ttl`, then the
upsert statement. -/
def set (t : Table) (key value : String) (ttl now : Int) : Table :=
  stmtInsert t key (some value) (now + ttl)

/-- `Cache.get(key)`: look the row up; if `rv.ttl < Date.now()` delete it and
return `null`; if `rv.value == null` delete it and return `null`; otherwise
return `rv.value`.  The result pairs the updated table with the returned
value (`none` models the TS `null`). -/
def get (t : Table) (key : String) (now : Int) : Table × Option String :=
  match stmtGet t key with
  | none => (t, none)
  | some rv =>
    if rv.ttl < now then (stmtDel t key, none)
    else if rv.value = none then (stmtDel t key, none)
    else (t, rv.value)

/-- `Cache.updateTtl(key, ttl)`: `UPDATE ... SET ttl = Date.now() + ttl WHERE key = ?`. -/
def updateTtl (t : Table) (key : String) (ttl now : Int) : Table :=
  stmtUpdateTtl t (now + ttl) key

/-- `Cache.del(key)` -/
def del (t : Table) (key : String) : Table :=
  stmtDel t key

/-- Startup purge in the constructor: `DELETE FROM t WHERE ttl < ?` with the
parameter bound to `date.getTime() - this.tbd`. -/
def purge (t : Table) (now tbd : Int) : Table :=
  t.filter (fun r => !decide (r.ttl < now - tbd))

/-- The TTL the constructor uses when writing the `__LAST_VACUUM` sentinel:
`10 * 365 * 60 * 60 * 24 * 1000` milliseconds. -/
def vacuumTtl : Int := 10 * 365 * 60 * 60 * 24 * 1000

/-- The TS test `lastVaccum === undefined`.  `Cache.get` has return type
`S | null` and returns `null` on every miss path (better-sqlite3 surfaces a
missing row as `undefined` only inside `get` itself, which converts it to
`null`), so this strict-equality comparison against `undefined` is false for
every value `lastVaccum` can take. -/
def isUndefined (_ : Option String) : Bool := false

/-- The tail of the constructor: startup purge, then the conditional weekly
vacuum
`if (lastVaccum === undefined || (lastVaccum !== dateString && date.getUTCDay() === 6))`,
whose then-branch first writes the sentinel via `set` and then runs `VACUUM`
(no effect on table contents).  Returns the resulting table and whether
`VACUUM` ran.  `dateString` is the local `YYYY-M-D` string and `utcDay` is
`date.getUTCDay()`. -/
def construct (t : Table) (now tbd : Int) (dateString : String) (utcDay : Nat) : Table × Bool :=
  let t1 := purge t now tbd
  let res := get t1 "__LAST_VACUUM" now
  if isUndefined res.2 || (res.2 != some dateString && utcDay == 6) then
    (set res.1 "__LAST_VACUUM" dateString vacuumTtl now, true)
  else
    (res.1, false)

/-- `const separator = '\u0000';` -/
def separator : Char := '\u0000'

/-- `export const serializeArray = (arr: string[]) => fastStringArrayJoin(arr, separator);`
JS strings are modelled as lists of characters; the join interleaves the
separator between consecutive elements. -/
def serializeArray (arr : List (List Char)) : List Char :=
  List.intercalate [separator] arr

/-- `export const deserializeArray = (str: string) => str.split(separator);`
JS `String.split` on a one-character separator. -/
def deserializeArray (s : List Char) : List (List Char) :=
  s.splitOn separator

/-- PRIMARY KEY invariant: keys are pairwise distinct. -/
def KeysUnique (t : Table) : Prop := (t.map Row.key).Nodup


/-! ### Helper lemmas -/

theorem stmtGet_stmtInsert_self (t : Table) (k : String) (v : Option String) (valid : Int) :
    stmtGet (stmtInsert t k v valid) k = some ⟨k, v, valid⟩ := by
  unfold stmtInsert stmtGet
  split
  case isTrue h =>
    rw [List.find?_map]
    have hcomp : ((fun r : Row => r.key == k) ∘ fun r : Row =>
        if r.key == k then { r with value := v, ttl := valid } else r) =
        fun r : Row => r.key == k := by
      funext r
      by_cases hrk : (r.key == k)
      · have hk : r.key = k := by simpa using hrk
        simp [hrk, hk]
      · have hk : ¬ r.key = k := by simpa using hrk
        simp [hrk, hk]
    rw [hcomp]
    obtain ⟨r0, hr0⟩ := Option.isSome_iff_exists.mp (List.find?_isSome.mpr (List.any_eq_true.mp h))
    have hp := List.find?_some hr0
    have hk : r0.key = k := by simpa using hp
    rw [hr0]
    simp [hp, hk]
  case isFalse h =>
    rw [List.find?_append]
    have hnone : List.find? (fun r : Row => r.key == k) t = none := by
      rw [List.find?_eq_none]
      intro x hx hpx
      exact h (List.any_eq_true.mpr ⟨x, hx, hpx⟩)
    rw [hnone]
    simp

theorem stmtGet_stmtUpdateTtl_self (t : Table) (k : String) (newTtl : Int) :
    stmtGet (stmtUpdateTtl t newTtl k) k =
      (stmtGet t k).map (fun r => { r with ttl := newTtl }) := by
  unfold stmtGet stmtUpdateTtl
  rw [List.find?_map]
  have hcomp : ((fun r : Row => r.key == k) ∘ fun r : Row =>
      if r.key == k then { r with ttl := newTtl } else r) =
      fun r : Row => r.key == k := by
    funext r
    by_cases hrk : (r.key == k)
    · have hk : r.key = k := by simpa using hrk
      simp [hrk, hk]
    · have hk : ¬ r.key = k := by simpa using hrk
      simp [hrk, hk]
  rw [hcomp]
  cases hf : List.find? (fun r : Row => r.key == k) t with
  | none => simp
  | some r0 =>
    have hp := List.find?_some hf
    have hk : r0.key = k := by simpa using hp
    simp [hp, hk]

theorem get_fresh (t : Table) (k : String) (now : Int) (rv : Row)
    (hfind : stmtGet t k = some rv) (hfresh : ¬ rv.ttl < now) (hval : rv.value ≠ none) :
    get t k now = (t, rv.value) := by
  simp only [get, hfind]
  rw [if_neg hfresh, if_neg hval]

theorem keysUnique_stmtInsert (t : Table) (k : String) (v : Option String) (valid : Int)
    (hu : KeysUnique t) : KeysUnique (stmtInsert t k v valid) := by
  unfold KeysUnique at hu ⊢
  unfold stmtInsert
  split
  case isTrue h =>
    have hmap : (t.map fun r => if r.key == k then { r with value := v, ttl := valid } else r).map
        Row.key = t.map Row.key := by
      rw [List.map_map]
      apply List.map_congr_left
      intro r _
      by_cases hrk : (r.key == k)
      · have hk : r.key = k := by simpa using hrk
        simp [hrk, hk]
      · have hk : ¬ r.key = k := by simpa using hrk
        simp [hrk, hk]
    rw [hmap]
    exact hu
  case isFalse h =>
    rw [List.map_append, List.nodup_append]
    refine ⟨hu, by simp, ?_⟩
    intro a ha hb
    simp only [List.map_cons, List.map_nil, List.mem_singleton] at hb
    subst hb
    obtain ⟨r, hr, hrk⟩ := List.mem_map.mp ha
    exact h (List.any_eq_true.mpr ⟨r, hr, by simp [hrk]⟩)

theorem keysUnique_stmtDel (t : Table) (k : String) (hu : KeysUnique t) :
    KeysUnique (stmtDel t k) :=
  List.Nodup.sublist (List.Sublist.map Row.key (List.filter_sublist t)) hu

theorem keysUnique_stmtUpdateTtl (t : Table) (newTtl : Int) (k : String) (hu : KeysUnique t) :
    KeysUnique (stmtUpdateTtl t newTtl k) := by
  unfold KeysUnique at hu ⊢
  unfold stmtUpdateTtl
  rw [List.map_map]
  have hcomp : (Row.key ∘ fun r : Row => if r.key == k then { r with ttl := newTtl } else r) =
      Row.key := by
    funext r
    by_cases hrk : (r.key == k)
    · have hk : r.key = k := by simpa using hrk
      simp [hrk, hk]
    · have hk : ¬ r.key = k := by simpa using hrk
      simp [hrk, hk]
  rw [hcomp]
  exact hu

theorem keysUnique_get (t : Table) (k : String) (now : Int) (hu : KeysUnique t) :
    KeysUnique (get t k now).1 := by
  unfold get
  cases hf : stmtGet t k with
  | none => exact hu
  | some rv =>
    dsimp only
    split
    · exact keysUnique_stmtDel t k hu
    · split
      · exact keysUnique_stmtDel t k hu
      · exact hu

theorem keysUnique_purge (t : Table) (now tbd : Int) (hu : KeysUnique t) :
    KeysUnique (purge t now tbd) :=
  List.Nodup.sublist (List.Sublist.map Row.key (List.filter_sublist t)) hu

theorem countP_stmtInsert (t : Table) (k : String) (v : Option String) (valid : Int)
    (hu : KeysUnique t) :
    (stmtInsert t k v valid).countP (fun r => r.key == k) = 1 := by
  have h1 : KeysUnique (stmtInsert t k v valid) := keysUnique_stmtInsert t k v valid hu
  have h2 : (⟨k, v, valid⟩ : Row) ∈ stmtInsert t k v valid :=
    List.mem_of_find?_eq_some (stmtGet_stmtInsert_self t k v valid)
  have h3 : k ∈ (stmtInsert t k v valid).map Row.key := List.mem_map.mpr ⟨_, h2, rfl⟩
  have h4 := List.count_eq_one_of_mem h1 h3
  rw [List.count_eq_countP, List.countP_map] at h4
  exact h4

/-! ### Claim theorems -/

/-- C1: the constructor runs `VACUUM` with the sentinel absent only on a
Saturday.  `Cache.get` returns `null` (never `undefined`) on a miss, so the
`lastVaccum === undefined` branch of the gate is dead: with no
`__LAST_VACUUM` row and `getUTCDay() = 1` (a Monday) the vacuum is skipped,
although the spec says an absent sentinel triggers compaction regardless of
the weekday; on a Saturday it does run. -/
theorem construct_vacuum_gate_eval :
    (construct [] 1000 60000 "2026-10-12" 1).2 = false ∧
    (construct [] 1000 60000 "2026-10-11" 6).2 = true := by
  constructor <;> rfl

/-- C2: if the row for `k` exists with `ttl` strictly below `now`, `get`
deletes the row and returns the absent result; afterwards no row for `k`
remains. -/
theorem get_expired_deletes (t : Table) (k : String) (now : Int) (rv : Row)
    (hfind : stmtGet t k = some rv) (hexp : rv.ttl < now) :
    (get t k now).2 = none ∧ ∀ r ∈ (get t k now).1, r.key ≠ k := by
  simp only [get, hfind]
  rw [if_pos hexp]
  refine ⟨rfl, ?_⟩
  intro r hr
  unfold stmtDel at hr
  rw [List.mem_filter] at hr
  simpa using hr.2

theorem get_expired_deletes_witness :
    (get [⟨"k", some "v", 10⟩] "k" 20).2 = none ∧
      ∀ r ∈ (get [⟨"k", some "v", 10⟩] "k" 20).1, r.key ≠ "k" :=
  get_expired_deletes [⟨"k", some "v", 10⟩] "k" 20 ⟨"k", some "v", 10⟩ rfl (by decide)

/-- C3 counterexample: a fresh row whose value is the empty string is
returned as an ordinary value and the row is kept; the TS guard is
`rv.value == null`, and `"" == null` is false in JS, so the empty string is
not treated as a corruption sentinel. -/
theorem get_empty_string_kept :
    get [⟨"k", some "", 100⟩] "k" 50 = ([⟨"k", some "", 100⟩], some "") := rfl

/-- C3 (amended): if the row for `k` exists, is not expired, and its stored
value is SQL `NULL`, `get` deletes the row and returns the absent result. -/
theorem get_null_value_deletes (t : Table) (k : String) (now : Int) (rv : Row)
    (hfind : stmtGet t k = some rv) (hfresh : ¬ rv.ttl < now) (hnull : rv.value = none) :
    (get t k now).2 = none ∧ ∀ r ∈ (get t k now).1, r.key ≠ k := by
  simp only [get, hfind]
  rw [if_neg hfresh, if_pos hnull]
  refine ⟨rfl, ?_⟩
  intro r hr
  unfold stmtDel at hr
  rw [List.mem_filter] at hr
  simpa using hr.2

theorem get_null_value_deletes_witness :
    (get [⟨"k", none, 100⟩] "k" 50).2 = none ∧
      ∀ r ∈ (get [⟨"k", none, 100⟩] "k" 50).1, r.key ≠ "k" :=
  get_null_value_deletes [⟨"k", none, 100⟩] "k" 50 ⟨"k", none, 100⟩ rfl (by decide) rfl

/-- C4: the startup purge retains a row exactly when its expiry is not
strictly below `now - tbd`: rows with `ttl < now - tbd` are deleted, all
others are kept. -/
theorem purge_mem_iff (t : Table) (now tbd : Int) (r : Row) :
    r ∈ purge t now tbd ↔ r ∈ t ∧ ¬ r.ttl < now - tbd := by
  unfold purge
  rw [List.mem_filter]
  simp

/-- C5: key uniqueness is preserved by every operation, and `set` on an
existing key overwrites value and expiry instead of adding a second row:
after `set k a; set k b` a fresh `get` returns `b` and exactly one row for
`k` exists. -/
theorem key_uniqueness_invariant (t : Table) (k a b : String) (ttl now : Int)
    (hu : KeysUnique t) (httl : 0 ≤ ttl) :
    KeysUnique (set t k a ttl now) ∧
    KeysUnique (updateTtl t k ttl now) ∧
    KeysUnique (del t k) ∧
    KeysUnique (get t k now).1 ∧
    KeysUnique (purge t now ttl) ∧
    (get (set (set t k a ttl now) k b ttl now) k now).2 = some b ∧
    (set (set t k a ttl now) k b ttl now).countP (fun r => r.key == k) = 1 := by
  have hu1 : KeysUnique (set t k a ttl now) := keysUnique_stmtInsert t k (some a) (now + ttl) hu
  refine ⟨hu1, keysUnique_stmtUpdateTtl t (now + ttl) k hu, keysUnique_stmtDel t k hu,
    keysUnique_get t k now hu, keysUnique_purge t now ttl hu, ?_,
    countP_stmtInsert (stmtInsert t k (some a) (now + ttl)) k (some b) (now + ttl) hu1⟩
  have hget := stmtGet_stmtInsert_self (stmtInsert t k (some a) (now + ttl)) k (some b) (now + ttl)
  unfold set
  rw [get_fresh _ _ _ _ hget (show ¬ (now + ttl < now) by omega) (by simp)]

theorem key_uniqueness_invariant_witness :
    KeysUnique (set [] "k" "a" 1000 0) ∧
    KeysUnique (updateTtl [] "k" 1000 0) ∧
    KeysUnique (del [] "k") ∧
    KeysUnique (get [] "k" 0).1 ∧
    KeysUnique (purge [] 0 1000) ∧
    (get (set (set [] "k" "a" 1000 0) "k" "b" 1000 0) "k" 0).2 = some "b" ∧
    (set (set [] "k" "a" 1000 0) "k" "b" 1000 0).countP (fun r => r.key == "k") = 1 :=
  key_uniqueness_invariant [] "k" "a" "b" 1000 0 (by simp [KeysUnique]) (by decide)

/-- C6: set/get round-trip.  `set` stores the absolute expiry `now + ttl`,
and any `get` at a time `now2` not past that expiry returns exactly the
stored value. -/
theorem set_get_roundtrip (t : Table) (k v : String) (ttl now now2 : Int)
    (hfresh : now2 ≤ now + ttl) :
    (get (set t k v ttl now) k now2).2 = some v := by
  unfold set
  rw [get_fresh _ _ _ _ (stmtGet_stmtInsert_self t k (some v) (now + ttl))
    (show ¬ (now + ttl < now2) by omega) (by simp)]

theorem set_get_roundtrip_witness :
    (get (set [] "k" "v" 100 0) "k" 50).2 = some "v" :=
  set_get_roundtrip [] "k" "v" 100 0 50 (by omega)

/-- C7: `updateTtl` on a present key sets its expiry to `now + ttl` and
leaves its value (and key) unchanged, so a fresh `get` afterwards returns
the original value; on a table without the key (here `del t k`) it leaves
the table unchanged. -/
theorem updateTtl_correct (t : Table) (k : String) (ttl now now2 : Int) (rv : Row) (v : String)
    (hfind : stmtGet t k = some rv) (hval : rv.value = some v) (hfresh : now2 ≤ now + ttl) :
    stmtGet (updateTtl t k ttl now) k = some ⟨rv.key, rv.value, now + ttl⟩ ∧
    (get (updateTtl t k ttl now) k now2).2 = some v ∧
    updateTtl (del t k) k ttl now = del t k := by
  have h1 : stmtGet (updateTtl t k ttl now) k = some ⟨rv.key, rv.value, now + ttl⟩ := by
    unfold updateTtl
    rw [stmtGet_stmtUpdateTtl_self, hfind]
    rfl
  refine ⟨h1, ?_, ?_⟩
  · rw [get_fresh _ _ _ _ h1 (show ¬ (now + ttl < now2) by omega) (by simp [hval])]
    simpa using hval
  · unfold updateTtl stmtUpdateTtl del stmtDel
    have h2 : ∀ r ∈ t.filter (fun r => r.key != k),
        (if r.key == k then { r with ttl := now + ttl } else r) = id r := by
      intro r hr
      rw [List.mem_filter] at hr
      rw [if_neg (by simpa using hr.2)]
      rfl
    rw [List.map_congr_left h2, List.map_id]

theorem updateTtl_correct_witness :
    stmtGet (updateTtl [⟨"k", some "x", 100⟩] "k" 100000 0) "k" =
      some ⟨"k", some "x", 0 + 100000⟩ ∧
    (get (updateTtl [⟨"k", some "x", 100⟩] "k" 100000 0) "k" 150).2 = some "x" ∧
    updateTtl (del [⟨"k", some "x", 100⟩] "k") "k" 100000 0 = del [⟨"k", some "x", 100⟩] "k" :=
  updateTtl_correct [⟨"k", some "x", 100⟩] "k" 100000 0 150 ⟨"k", some "x", 100⟩ "x"
    rfl rfl (by omega)

/-- C8: `del` is idempotent and total: deleting twice equals deleting once
(in particular `del` on a table without the key changes nothing), and the
table after `del t k` holds exactly the rows of `t` whose key differs from
`k`. -/
theorem del_idempotent (t : Table) (k : String) :
    del (del t k) k = del t k ∧ ∀ r, (r ∈ del t k ↔ r ∈ t ∧ r.key ≠ k) := by
  constructor
  · simp only [del, stmtDel, List.filter_filter]
    apply List.filter_congr
    intro r _
    exact Bool.and_self _
  · intro r
    simp [del, stmtDel, List.mem_filter]

/-- C9 counterexample: the empty list does not round-trip: serialising `[]`
yields the empty string, which deserialises to `[""]`. -/
theorem codec_roundtrip_empty_fails :
    deserializeArray (serializeArray []) ≠ [] := by decide

/-- C9 (amended): for every nonempty list of strings none of which contains
the separator, deserialising the serialisation returns the list. -/
theorem codec_roundtrip (xs : List (List Char)) (hne : xs ≠ [])
    (hsep : ∀ s ∈ xs, separator ∉ s) :
    deserializeArray (serializeArray xs) = xs := by
  unfold deserializeArray serializeArray
  exact List.splitOn_intercalate xs separator hsep hne

theorem codec_roundtrip_witness :
    deserializeArray (serializeArray [[Char.ofNat 97], [Char.ofNat 98]]) =
      [[Char.ofNat 97], [Char.ofNat 98]] :=
  codec_roundtrip [[Char.ofNat 97], [Char.ofNat 98]] (by decide) (by decide)

/-- C10: the codec's empty-input convention: serialising the empty list
gives the empty string, deserialising the empty string gives the singleton
list holding the empty string, and hence the round-trip maps `[]` to
`[""]`. -/
theorem codec_empty_convention :
    serializeArray [] = [] ∧ deserializeArray [] = [[]] ∧
    deserializeArray (serializeArray []) = [[]] :=
  ⟨rfl, rfl, rfl⟩

end CacheFS
